import Mathlib

/-!
Verification of the Tourenliste PDF→Excel parser (`src/app.py`)

Shallow embedding of the parsing core of `app.py`.  Text is modelled as
`List Char` (Python `str`); the regular expressions of the source are
translated into executable parsers whose backtracking behaviour was derived
by hand from the respective patterns.  Python's `\s`, `\d` and `\w` are
Unicode classes; the embedding restricts them to the ASCII range plus the
German letters actually used by the source's own character classes
(`ÄÖÜäöü`, `ß`), which is the alphabet of the report the program targets.

Errors raised by the Python code (`KeyError`, `IndexError`) are modelled with
`Except String` / `Option`.
-/

set_option maxRecDepth 10000

namespace Tourenliste

/-- Python `\s`, restricted to the ASCII whitespace characters. -/
def isSpace (c : Char) : Bool :=
  c = ' ' || c = '\t' || c = '\n' || c = '\r' || c = '\x0b' || c = '\x0c'

/-- The German letters appearing in the source's character classes
`[A-Za-zÄÖÜäöü\-]`. -/
def umlautChars : List Char := ['Ä', 'Ö', 'Ü', 'ä', 'ö', 'ü']

/-- Python `\w` (word character), restricted to ASCII alphanumerics, `_`
and the German letters of the report. -/
def isWordChar (c : Char) : Bool :=
  c.isAlphanum || c = '_' || c ∈ umlautChars || c = 'ß'

/-- The character class `[A-Za-zÄÖÜäöü\-]` used by `split_plz_ort` and
`extract_street`. -/
def plzLetter (c : Char) : Bool :=
  c.isAlpha || c ∈ umlautChars || c = '-'

/-- Python `str.strip()` (whitespace from both ends). -/
def pyStrip (l : List Char) : List Char :=
  ((l.dropWhile isSpace).reverse.dropWhile isSpace).reverse

/-- Python `str.strip(chars)` for an explicit strip set. -/
def pyStripChars (l : List Char) (cs : List Char) : List Char :=
  ((l.dropWhile (· ∈ cs)).reverse.dropWhile (· ∈ cs)).reverse

/-- Fuel-driven core of whitespace collapsing: each maximal whitespace run
becomes a single `' '` (the effect of `re.sub(r"\s+", " ", ·)`). -/
def collapseWsGo : Nat → List Char → List Char
  | 0, _ => []
  | _, [] => []
  | fuel + 1, c :: rest =>
    if isSpace c then ' ' :: collapseWsGo fuel (rest.dropWhile isSpace)
    else c :: collapseWsGo fuel rest

/-- Embeds `normalize_spaces` (app.py line 15): `re.sub(r"\s+", " ", s.strip())`. -/
def normalize_spaces (s : List Char) : List Char :=
  collapseWsGo s.length (pyStrip s)

/-- Python `str.startswith`, written out (arguments: pattern, then string). -/
def startsWithL : List Char → List Char → Bool
  | [], _ => true
  | _ :: _, [] => false
  | p :: ps, c :: cs => p == c && startsWithL ps cs

/-- Python `pat in hay` (substring containment). -/
def containsSub : List Char → List Char → Bool
  | hay, pat =>
    if startsWithL pat hay then true
    else match hay with
      | [] => false
      | _ :: t => containsSub t pat

/-- Python `hay.find(pat)`: index of the first occurrence, `none` for Python's `-1`. -/
def pyFind : List Char → List Char → Option Nat
  | hay, pat =>
    if startsWithL pat hay then some 0
    else match hay with
      | [] => none
      | _ :: t => (pyFind t pat).map (· + 1)

/-- Python `text.split("\n")` (as performed on each page's extracted text):
a `'\n'` opens a new (initially empty) group, any other character is
prepended to the current first group.  The result is never empty. -/
def pySplitNl : List Char → List (List Char)
  | [] => [[]]
  | c :: rest =>
    if c = '\n' then [] :: pySplitNl rest
    else (c :: (pySplitNl rest).headD []) :: (pySplitNl rest).tail

/-- Fuel-driven Python `str.split()` (split on whitespace runs, no empties). -/
def pySplitWsGo : Nat → List Char → List (List Char)
  | 0, _ => []
  | fuel + 1, l =>
    match l.dropWhile isSpace with
    | [] => []
    | c :: t => ((c :: t).takeWhile (fun x => !isSpace x)) ::
        pySplitWsGo fuel ((c :: t).dropWhile (fun x => !isSpace x))

/-- Python `str.split()`. -/
def pySplitWs (l : List Char) : List (List Char) := pySplitWsGo l.length l

/-! ## The end-marker regex

`app.py` uses the pattern `(\d+/\d+\.\d+)\s+(\d+)\s+(\d+)\s*$` via
`re.search` in `parse_records_from_text` (line 106/133) and the variant
`^(?P<pre>.*?)(?P<pos>\d+/\d+\.\d+)\s+(?P<adr>\d+)\s+(?P<rh>\d+)\s*$` via
`re.match` in `parse_block` (line 144/156).  Because every quantified piece
of the tail is followed by a character outside its class, the match at a
fixed start position is deterministic (maximal runs); `re.search` takes the
leftmost start position from which the tail reaches the end of the string,
and the lazy `(?P<pre>.*?)` of the `match` variant selects the very same
start position, except that `.` cannot cross a `'\n'`. -/

/-- The three capture groups of the end marker. -/
structure EndCap where
  pos : List Char
  adr : List Char
  rh : List Char
deriving DecidableEq

/-- Matches `\d+` with at least one digit: the maximal digit run and the rest. -/
def chompDigits1 (l : List Char) : Option (List Char × List Char) :=
  if (l.takeWhile Char.isDigit).isEmpty then none
  else some (l.takeWhile Char.isDigit, l.dropWhile Char.isDigit)

/-- Matches `\s+` with at least one whitespace character: the rest after the run. -/
def chompSpaces1 (l : List Char) : Option (List Char) :=
  if (l.takeWhile isSpace).isEmpty then none else some (l.dropWhile isSpace)

/-- A single literal character. -/
def chompLit (c : Char) : List Char → Option (List Char)
  | x :: r => if x = c then some r else none
  | [] => none

/-- Match `\d+/\d+\.\d+\s+\d+\s+\d+\s*$` against the whole of `l`
(deterministic expansion of the regex at a fixed start position: every
quantified piece is followed by a character outside its class, so each run
is maximal and no backtracking survives). -/
def endParseAt (l : List Char) : Option EndCap := do
  let (d1, r1) ← chompDigits1 l
  let r2 ← chompLit '/' r1
  let (d2, r3) ← chompDigits1 r2
  let r4 ← chompLit '.' r3
  let (d3, r5) ← chompDigits1 r4
  let r6 ← chompSpaces1 r5
  let (adr, r7) ← chompDigits1 r6
  let r8 ← chompSpaces1 r7
  let (rh, r9) ← chompDigits1 r8
  if (r9.dropWhile isSpace).isEmpty then
    pure ⟨d1 ++ '/' :: (d2 ++ '.' :: d3), adr, rh⟩
  else none

/-- Model of `re.search` of the end marker: leftmost start position together with the
captures. -/
def endSearchGo : List Char → Option (Nat × EndCap)
  | [] => none
  | c :: t =>
    match endParseAt (c :: t) with
    | some cap => some (0, cap)
    | none => (endSearchGo t).map (fun p => (p.1 + 1, p.2))

/-- Boolean `re.search` of the end marker (the segmenter's use, line 133). -/
def endMarkerB (l : List Char) : Bool := (endSearchGo l).isSome

/-- Model of `parse_block`'s `end_re.match(last)` (line 156): same leftmost match, but
the lazy `(?P<pre>.*?)` group cannot cross a newline; returns
`(pre, captures)`. -/
def endMatchLine (l : List Char) : Option (List Char × EndCap) :=
  match endSearchGo l with
  | some (k, cap) => if '\n' ∈ l.take k then none else some (l.take k, cap)
  | none => none

/-! ## The phone regex

`(?:\+|00)?\d[\d\s]{7,}\d`, used by `extract_phones` (line 25, `findall`),
`extract_contact_name` (line 42, `search`) and `parse_block` (line 174,
boolean `search`).  At a fixed start position the alternation tries `+`,
then `00`, then the empty prefix; the greedy `[\d\s]{7,}` backtracks until
the final `\d` lands on the last digit inside the maximal digit/space run
(at offset ≥ 7 into the run). -/

/-- Largest index `j ≥ 7` of a digit inside `run` (the landing point of the
final `\d` after greedy backtracking), if any. -/
def lastGoodIdx (run : List Char) : Option Nat :=
  ((List.range run.length).filter (fun j => 7 ≤ j && (run.getD j ' ').isDigit)).getLast?

/-- Match `\d[\d\s]{7,}\d` at the start of `l`; returns (matched, rest). -/
def phoneCore (l : List Char) : Option (List Char × List Char) :=
  match l with
  | [] => none
  | d :: rest =>
    if !d.isDigit then none else
    let run := rest.takeWhile (fun c => c.isDigit || isSpace c)
    let after := rest.dropWhile (fun c => c.isDigit || isSpace c)
    match lastGoodIdx run with
    | some j => some (d :: run.take (j + 1), run.drop (j + 1) ++ after)
    | none => none

/-- Match `(?:\+|00)?\d[\d\s]{7,}\d` at the start of `l` (alternatives in
Python's order: `+`, `00`, empty). -/
def phoneMatchAt (l : List Char) : Option (List Char × List Char) :=
  match l with
  | '+' :: r =>
    match phoneCore r with
    | some (m, rest) => some ('+' :: m, rest)
    | none => none
  | '0' :: '0' :: r =>
    match phoneCore r with
    | some (m, rest) => some ('0' :: '0' :: m, rest)
    | none => phoneCore ('0' :: '0' :: r)
  | other => phoneCore other

/-- Fuel-driven `re.findall` scan: try each position left to right, resume
after the end of each (non-empty) match. -/
def findallPhonesGo : Nat → List Char → List (List Char)
  | 0, _ => []
  | _, [] => []
  | fuel + 1, c :: t =>
    match phoneMatchAt (c :: t) with
    | some (m, rest) => m :: findallPhonesGo fuel rest
    | none => findallPhonesGo fuel t

/-- Model of `re.findall(r"(?:\+|00)?\d[\d\s]{7,}\d", text)`. -/
def findallPhones (l : List Char) : List (List Char) := findallPhonesGo l.length l

/-- Start index of the leftmost phone match (`re.search(...).start()`). -/
def phoneSearchStart : List Char → Option Nat
  | [] => none
  | c :: t =>
    if (phoneMatchAt (c :: t)).isSome then some 0
    else (phoneSearchStart t).map (· + 1)

/-! ## The field extractors (app.py lines 12–98) -/

/-- Order-preserving deduplication, as in `extract_phones`'s seen-set loop
(lines 28–33); `seen` accumulates the values already emitted. -/
def dedupKeepOrderGo (seen : List (List Char)) : List (List Char) → List (List Char)
  | [] => []
  | p :: ps =>
    if p ∈ seen then dedupKeepOrderGo seen ps
    else p :: dedupKeepOrderGo (p :: seen) ps

/-- Order-preserving deduplication of the normalized phone matches. -/
def dedupKeepOrder (l : List (List Char)) : List (List Char) := dedupKeepOrderGo [] l

/-- The normalized, deduplicated phone-match list that `extract_phones`
joins with `" / "`. -/
def phoneListNorm (text : List Char) : List (List Char) :=
  dedupKeepOrder ((findallPhones text).map normalize_spaces)

/-- Embeds `extract_phones` (lines 19–34). -/
def extract_phones (text : List Char) : List Char :=
  List.intercalate " / ".data (phoneListNorm text)

/-- Embeds `extract_contact_name` (lines 37–46): text before the first phone match,
stripped of `" /"` and whitespace-normalized; `""` when no phone occurs. -/
def extract_contact_name (text : List Char) : List Char :=
  match phoneSearchStart text with
  | none => []
  | some k => normalize_spaces (pyStripChars (text.take k) [' ', '/'])

/-- The list `ARTICLE_TOKENS` (line 12); order matters. -/
def ARTICLE_TOKENS : List (List Char) := ["DGB 2023".data, "GB 2023".data, "KB".data]

/-- Embeds `extract_article` (lines 49–53): first token of `ARTICLE_TOKENS` that is
a substring of the text, else `""`. -/
def extract_article (text : List Char) : List Char :=
  match ARTICLE_TOKENS.find? (fun tok => containsSub text tok) with
  | some tok => tok
  | none => []

/-! ### `split_plz_ort` (lines 56–65)

Pattern `\b(\d{4})\s+([A-Za-zÄÖÜäöü\-]+(?:\s+[A-Za-zÄÖÜäöü\-]+)*)\b`.
The second group is a sequence of letter-runs separated by whitespace runs;
its greedy end backtracks to the largest end position at which the trailing
`\b` holds. -/

/-- All reachable end offsets of `[cls]+(?:\s+[cls]+)*` inside `l`
(every offset at least one character into each walked letter-run),
in increasing order.  Fuel-driven (each round consumes ≥ 1 character). -/
def plzCandListGo : Nat → List Char → Nat → List Nat
  | 0, _, _ => []
  | fuel + 1, l, base =>
    let run := l.takeWhile plzLetter
    let rest := l.dropWhile plzLetter
    if run.isEmpty then [] else
    let ends := (List.range run.length).map (fun i => base + i + 1)
    let ws := rest.takeWhile isSpace
    let rest2 := rest.dropWhile isSpace
    if ws.isEmpty then ends
    else if (rest2.takeWhile plzLetter).isEmpty then ends
    else ends ++ plzCandListGo fuel rest2 (base + run.length + ws.length)

/-- Candidate group-2 end offsets. -/
def plzCandList (l : List Char) : List Nat := plzCandListGo l.length l 0

/-- Is there a word boundary at offset `e` of `l` (with `l` preceded by a
word character iff `prevWord`)?  Here `e ≥ 1` always. -/
def boundaryAtEnd (l : List Char) (e : Nat) : Bool :=
  match l.get? e with
  | some c2 => isWordChar (l.getD (e - 1) ' ') != isWordChar c2
  | none => isWordChar (l.getD (e - 1) ' ')

/-- Match `\b(\d{4})\s+(group)\b` at the start of `l`, where the previous
character (if any) is `prev`; returns the two capture groups. -/
def plzMatchAt (prev : Option Char) (l : List Char) : Option (List Char × List Char) :=
  let prevWord := match prev with | none => false | some p => isWordChar p
  match l with
  | a :: b :: c :: d :: rest =>
    if (prevWord != isWordChar a)  -- \b before the first digit
        && a.isDigit && b.isDigit && c.isDigit && d.isDigit then
      let ws := rest.takeWhile isSpace
      let rest2 := rest.dropWhile isSpace
      if ws.isEmpty then none else
      match ((plzCandList rest2).filter (fun e => boundaryAtEnd rest2 e)).getLast? with
      | some e => some ([a, b, c, d], rest2.take e)
      | none => none
    else none
  | _ => none

/-- Model of the `re.search` scan for `split_plz_ort`'s pattern. -/
def plzSearchGo (prev : Option Char) : List Char → Option (List Char × List Char)
  | [] => none
  | c :: t =>
    match plzMatchAt prev (c :: t) with
    | some r => some r
    | none => plzSearchGo (some c) t

/-- Embeds `split_plz_ort` (lines 56–65). -/
def split_plz_ort (text : List Char) : List Char :=
  match plzSearchGo none text with
  | none => []
  | some (g1, g2) => normalize_spaces (g1 ++ ' ' :: g2)

/-! ### `extract_street` (lines 68–98) -/

/-- Model of `re.search(r"\b\d{4}\b", text).start()`: leftmost standalone 4-digit run. -/
def streetPlzPos (prev : Option Char) (idx : Nat) : List Char → Option Nat
  | [] => none
  | c :: t =>
    let prevWord := match prev with | none => false | some p => isWordChar p
    let ok :=
      (prevWord != isWordChar c) &&
      (match c :: t with
       | a :: b :: c2 :: d :: rest =>
         a.isDigit && b.isDigit && c2.isDigit && d.isDigit &&
         (match rest with
          | [] => true
          | e :: _ => !isWordChar e)
       | _ => false)
    if ok then some idx else streetPlzPos (some c) (idx + 1) t

/-- The street-suffix alternation `(?:strasse|straße|weg|platz|gasse|ring|allee)`. -/
def STREET_SUFFIXES : List (List Char) :=
  ["strasse".data, "straße".data, "weg".data, "platz".data, "gasse".data,
   "ring".data, "allee".data]

/-- ASCII/umlaut lower-casing for `re.IGNORECASE`. -/
def lowerGerman (c : Char) : Char :=
  if c = 'Ä' then 'ä' else if c = 'Ö' then 'ö' else if c = 'Ü' then 'ü'
  else c.toLower

/-- Case-insensitive `pat` at the start of `l`. -/
def ciStartsWith : List Char → List Char → Bool
  | [], _ => true
  | _ :: _, [] => false
  | p :: ps, c :: cs => (lowerGerman p == lowerGerman c) && ciStartsWith ps cs

/-- The `\s+\d+\w?\b` tail of `extract_street`'s first pattern (line 83),
with the backtracking of `\w?` and `\d+` resolved. -/
def numTailOk (t : List Char) : Bool :=
  let t2 := t.dropWhile isSpace
  if (t.takeWhile isSpace).isEmpty then false else
  let t3 := t2.dropWhile Char.isDigit
  if (t2.takeWhile Char.isDigit).isEmpty then false else
  match t3 with
  | [] => true
  | e :: rest =>
    if !isWordChar e then true
    else match rest with
      | [] => true
      | f :: _ => !isWordChar f

/-- Does `([A-Za-zÄÖÜäöü\-]+(?:strasse|…|allee))\s+\d+\w?\b` match at the
start of `l` (word boundary already checked by the caller)?  The greedy
letter-run prefix backtracks over every split point before a suffix. -/
def streetM1At (l : List Char) : Bool :=
  (List.range (l.takeWhile plzLetter).length).any (fun i =>
    STREET_SUFFIXES.any (fun suf =>
      ciStartsWith suf (l.drop (i + 1)) && numTailOk (l.drop (i + 1 + suf.length))))

/-- Model of the `re.search` start position of `extract_street`'s first pattern. -/
def streetM1Start (prev : Option Char) (idx : Nat) : List Char → Option Nat
  | [] => none
  | c :: t =>
    let prevWord := match prev with | none => false | some p => isWordChar p
    if (prevWord != isWordChar c) && streetM1At (c :: t) then some idx
    else streetM1Start (some c) (idx + 1) t

/-- Match `([A-Za-zÄÖÜäöü\-]+\s+\d+\w?)\s*$` at the start of `l`, returning
the capture group (backtracking of `\w?` resolved; the trailing `\s*$` must
consume the entire remainder). -/
def streetM2At (l : List Char) : Option (List Char) :=
  let C := l.takeWhile plzLetter
  let r1 := l.dropWhile plzLetter
  if C.isEmpty then none else
  let W := r1.takeWhile isSpace
  let r2 := r1.dropWhile isSpace
  if W.isEmpty then none else
  let D := r2.takeWhile Char.isDigit
  let r3 := r2.dropWhile Char.isDigit
  if D.isEmpty then none else
  match r3 with
  | [] => some (C ++ W ++ D)
  | e :: r =>
    if isWordChar e && r.all isSpace then some (C ++ W ++ D ++ [e])
    else if isSpace e && r.all isSpace then some (C ++ W ++ D)
    else none

/-- Model of the `re.search` scan for `extract_street`'s second pattern. -/
def streetM2Go : List Char → Option (List Char)
  | [] => none
  | c :: t =>
    match streetM2At (c :: t) with
    | some g => some g
    | none => streetM2Go t

/-- The `pre` text of `extract_street` (lines 74–78).  Note the Python
truthiness slip: `text[:plz_pos].strip() if plz_pos else text` treats a
match at position 0 like no match. -/
def streetPre (text : List Char) : List Char :=
  match streetPlzPos none 0 text with
  | some k => if k = 0 then text else pyStrip (text.take k)
  | none => text

/-- Embeds `extract_street` (lines 68–98). -/
def extract_street (text : List Char) : List Char :=
  let pre := normalize_spaces (streetPre text)
  match streetM1Start none 0 pre with
  | some k => normalize_spaces (pre.drop k)
  | none =>
    match streetM2Go pre with
    | some g => normalize_spaces g
    | none =>
      if pre ≠ [] ∧ (pySplitWs pre).length ≤ 4 then pre else []

/-! ## The record segmenter `parse_records_from_text` (lines 101–137) -/

/-- The head/footer noise filters of the segmenter (lines 113–129), applied
to the already-stripped line, in source order.  The two `Tour ` branches
(with and without `Gesamt`) are kept separate as in the source. -/
def lineSkip (line : List Char) : Bool :=
  if line.isEmpty then true
  else if containsSub line "Tourenliste per:".data then true
  else if startsWithL "103_Tourenliste".data line then true
  else if startsWithL "Firma Ansprech".data line then true
  else if startsWithL "Tour ".data line && containsSub line "Gesamt".data then true
  else if startsWithL "Tour ".data line && !containsSub line "Gesamt".data then true
  else if containsSub line "Seite:".data then true
  else false

/-- The stripped, non-noise lines that enter the accumulation buffer. -/
def keptLines (ls : List (List Char)) : List (List Char) :=
  (ls.map pyStrip).filter (fun l => !lineSkip l)

/-- The segmenter loop: returns the emitted blocks together with the final
(leftover) buffer, which the source discards on return (line 137). -/
def parseRecordsAux : List (List Char) → List (List Char) →
    List (List (List Char)) × List (List Char)
  | [], buf => ([], buf)
  | l :: ls, buf =>
    let line := pyStrip l
    if lineSkip line then parseRecordsAux ls buf
    else if endMarkerB line then
      let rest := parseRecordsAux ls []
      ((buf ++ [line]) :: rest.1, rest.2)
    else parseRecordsAux ls (buf ++ [line])

/-- Embeds `parse_records_from_text` (lines 101–137). -/
def parse_records_from_text (lines : List (List Char)) : List (List (List Char)) :=
  (parseRecordsAux lines []).1

/-- The buffer still in flight when the input ends (discarded by the source). -/
def segFinalBuf (lines : List (List Char)) : List (List Char) :=
  (parseRecordsAux lines []).2

/-! ## `parse_block` (lines 140–226) -/

/-- Model of `re.fullmatch(r"\d{2,6}", l.strip())` (line 169): pure short numeric line. -/
def isPureNumLine (l : List Char) : Bool :=
  let s := pyStrip l
  s.all Char.isDigit && 2 ≤ s.length && s.length ≤ 6

/-- Does one of the street suffixes occur at the start of `l`, followed by a
word boundary (pattern `(strasse|straße|weg|platz|gasse|ring|allee)\b` of
line 192, which has no leading boundary)? -/
def streetWordAt (l : List Char) : Bool :=
  STREET_SUFFIXES.any (fun suf =>
    ciStartsWith suf l &&
    (match l.drop suf.length with
     | [] => true
     | e :: _ => !isWordChar e))

/-- Boolean `re.search` for the street-suffix pattern of line 192. -/
def streetWordIn : List Char → Bool
  | [] => false
  | c :: t => streetWordAt (c :: t) || streetWordIn t

/-- Tail check of the Bemerkung clean-up pattern
`\b{pos}\b\s+{adr}\s+{rh}\s*$` (line 207) at a fixed start position:
the escaped literals with the interleaved whitespace must reach the end. -/
def subEndTailOk (t pos adr rh : List Char) : Bool :=
  startsWithL pos t &&
  (let t1 := t.drop pos.length
   let t2 := t1.dropWhile isSpace
   !(t1.takeWhile isSpace).isEmpty && startsWithL adr t2 &&
   (let t3 := t2.drop adr.length
    let t4 := t3.dropWhile isSpace
    !(t3.takeWhile isSpace).isEmpty && startsWithL rh t4 &&
    (t4.drop rh.length).all isSpace))

/-- Leftmost start position of the Bemerkung clean-up pattern (the `\b`
before the position-box literal is the usual boundary test). -/
def removeEndMarkerGo (prev : Option Char) (idx : Nat) (pos adr rh : List Char) :
    List Char → Option Nat
  | [] => none
  | c :: rest =>
    let prevWord := match prev with | none => false | some p => isWordChar p
    if (prevWord != isWordChar c) && subEndTailOk (c :: rest) pos adr rh then some idx
    else removeEndMarkerGo (some c) (idx + 1) pos adr rh rest

/-- The `pos_box` / `adr` / `rh` / `pre_last` quadruple of `parse_block`
(lines 150–163): taken from the end-marker match of the block's last line,
all-empty when the match fails. -/
def endMatchParts (lastL : List Char) : List Char × List Char × List Char × List Char :=
  match endMatchLine lastL with
  | some (pre, cap) => (cap.pos, cap.adr, cap.rh, normalize_spaces pre)
  | none => ([], [], [], [])

/-- The fixed output column order (lines 251–262), also the key order of the
dict literal returned by `parse_block` (lines 215–226). -/
def tourColumns : List String :=
  ["Firma", "Ansprechperson", "Telefon", "Strasse", "PLZ / Ort", "Artikel",
   "Bemerkung", "Position Box", "Adr.-Nr.", "Rhythmus"]

/-- A row: the dict produced by `parse_block`, as an ordered key/value list. -/
abbrev Row := List (String × List Char)

/-- First value stored under key `k` (Python dict lookup; all lookups that
the pipeline performs are on present keys). -/
def rowGetD (r : Row) (k : String) : List Char :=
  match r with
  | [] => []
  | (k', v) :: rest => if k' = k then v else rowGetD rest k

/-- Dict-style update: replace the value at `k` in place, appending when
absent. -/
def rowSet (r : Row) (k : String) (v : List Char) : Row :=
  match r with
  | [] => [(k, v)]
  | (k', v') :: rest => if k' = k then (k, v) :: rest else (k', v') :: rowSet rest k v

/-- Embeds `parse_block` (lines 140–226).  `none` models the `IndexError` that
`block_lines[0]` / `block_lines[-1]` raise on an empty block. -/
def parse_block (block_lines : List (List Char)) : Option Row :=
  match block_lines with
  | [] => none
  | first :: restLines =>
    let lastL := (first :: restLines).getLastD []
    let full := normalize_spaces (List.intercalate [' '] (first :: restLines))
    let parts := endMatchParts lastL
    let pos_box := parts.1
    let adr := parts.2.1
    let rh := parts.2.2.1
    let pre_last := parts.2.2.2
    let firma := normalize_spaces first
    let cleaned_lines := restLines.filter (fun l => !isPureNumLine l)
    let contact_line := (cleaned_lines.find? (fun l => (phoneSearchStart l).isSome)).getD []
    let telefon := if contact_line ≠ [] then extract_phones contact_line else extract_phones full
    let ansprech := if contact_line ≠ [] then extract_contact_name contact_line else []
    let artikel := extract_article full
    let plz_ort := split_plz_ort full
    let street_candidate := (cleaned_lines.find? (fun l => streetWordIn l)).getD []
    let strasse := extract_street (if street_candidate ≠ [] then street_candidate else full)
    let bemerkung :=
      if artikel ≠ [] then
        let idx := (pyFind full artikel).getD 0
        let after := pyStrip (full.drop (idx + artikel.length))
        if pos_box ≠ [] then
          pyStrip (match removeEndMarkerGo none 0 pos_box adr rh after with
            | some k => after.take k
            | none => after)
        else after
      else pre_last
    some [("Firma", firma), ("Ansprechperson", ansprech), ("Telefon", telefon),
          ("Strasse", strasse), ("PLZ / Ort", plz_ort), ("Artikel", artikel),
          ("Bemerkung", normalize_spaces bemerkung), ("Position Box", pos_box),
          ("Adr.-Nr.", adr), ("Rhythmus", rh)]

/-! ## The table assembly `parse_tourenliste` (lines 229–268)

The `pandas.DataFrame` is modelled as a column list plus ordered key/value
rows.  `pd.DataFrame(rows)` collects columns in order of first appearance;
on an empty row list it has **no** columns, so the subsequent `df["Firma"]`
(line 247) raises `KeyError` — modelled by `Except.error`. -/

structure Frame where
  cols : List String
  rows : List Row
deriving DecidableEq

/-- Column collection of `pd.DataFrame(list_of_dicts)`: keys in order of
first appearance. -/
def insKeys (acc : List String) (r : Row) : List String :=
  r.foldl (fun a kv => if kv.1 ∈ a then a else a ++ [kv.1]) acc

def pdCols (rows : List Row) : List String := rows.foldl insKeys []

def pdDataFrame (rows : List Row) : Frame := ⟨pdCols rows, rows⟩

/-- Model of the `df[c]` column read; `KeyError` when the column is absent. -/
def frameGetCol (df : Frame) (c : String) : Except String (List (List Char)) :=
  if c ∈ df.cols then .ok (df.rows.map (fun r => rowGetD r c))
  else .error ("KeyError: " ++ c)

/-- Model of the `df[c] = series` column write (index-aligned). -/
def frameSetCol (df : Frame) (c : String) (vals : List (List Char)) : Frame :=
  ⟨df.cols, (df.rows.zip vals).map (fun rv => rowSet rv.1 c rv.2)⟩

/-- Boolean-mask row filter (`df[mask].reset_index(drop=True)`). -/
def frameFilter (df : Frame) (mask : List Bool) : Frame :=
  ⟨df.cols, ((df.rows.zip mask).filter (fun rb => rb.2)).map (fun rb => rb.1)⟩

/-- Model of `df[c] = ""` for a missing column (appended at the end). -/
def frameAddCol (df : Frame) (c : String) : Frame :=
  ⟨df.cols ++ [c], df.rows.map (fun r => r ++ [(c, ([] : List Char))])⟩

/-- Model of the `df[columns]` column selection / reordering. -/
def frameSelect (df : Frame) (cs : List String) : Except String Frame :=
  if cs.all (fun c => c ∈ df.cols) then
    .ok ⟨cs, df.rows.map (fun r => cs.map (fun c => (c, rowGetD r c)))⟩
  else .error "KeyError"

/-- The regex `^\d+/\d+\.\d+$` as an exact whole-string property (the format the spec
states for retained `Position Box` values). -/
def posBoxExact (v : List Char) : Bool :=
  let d1 := v.takeWhile Char.isDigit
  let r1 := v.dropWhile Char.isDigit
  !d1.isEmpty &&
  (match r1 with
   | '/' :: r2 =>
     let d2 := r2.takeWhile Char.isDigit
     let r3 := r2.dropWhile Char.isDigit
     !d2.isEmpty &&
     (match r3 with
      | '.' :: r4 =>
        let d3 := r4.takeWhile Char.isDigit
        let r5 := r4.dropWhile Char.isDigit
        !d3.isEmpty && r5.isEmpty
      | _ => false)
   | _ => false)

/-- Model of `Series.str.match(r"^\d+/\d+\.\d+$")` (line 248): Python's `re.match`
with `$`, which also accepts a single trailing newline. -/
def pyMatchPosBox (v : List Char) : Bool :=
  posBoxExact v ||
  (match v.getLast? with
   | some '\n' => posBoxExact v.dropLast
   | _ => false)

/-- All lines of all pages: `txt.split("\n")` per page, concatenated
(lines 230–236).  A page is represented by its extracted text. -/
def allLines (pages : List (List Char)) : List (List Char) :=
  (pages.map pySplitNl).flatten

/-- The comprehension `rows = [parse_block(b) for b in blocks]` propagates
any `IndexError` from `parse_block`. -/
def mapOpt (f : α → Option β) : List α → Option (List β)
  | [] => some []
  | x :: xs =>
    match f x, mapOpt f xs with
    | some y, some ys => some (y :: ys)
    | _, _ => none

/-- Blocks of the whole document. -/
def tourBlocks (pages : List (List Char)) : List (List (List Char)) :=
  parse_records_from_text (allLines pages)

/-- The unfiltered row dicts (line 242). -/
def tourRows0 (pages : List (List Char)) : Option (List Row) :=
  mapOpt parse_block (tourBlocks pages)

/-- The per-row effect of line 247
(`df["Firma"] = df["Firma"].fillna("").map(normalize_spaces)`; `fillna` is
the identity on string values). -/
def firmaFixRow (r : Row) : Row :=
  rowSet r "Firma" (normalize_spaces (rowGetD r "Firma"))

/-- The rows right before the `Position Box` filter of line 248. -/
def tourRowsPre (pages : List (List Char)) : Option (List Row) :=
  (tourRows0 pages).map (fun rs => rs.map firmaFixRow)

/-- The filter predicate of line 248 on a row. -/
def keepRow (r : Row) : Bool := pyMatchPosBox (rowGetD r "Position Box")

/-- The frame-assembly tail of `parse_tourenliste` (lines 244–268):
`pd.DataFrame(rows)`, the `Firma` re-normalization, the `Position Box`
filter, the missing-column fill-in loop and the final column selection. -/
def assembleFrame (rows : List Row) : Except String Frame :=
  let df := pdDataFrame rows
  match frameGetCol df "Firma" with
  | .error e => .error e
  | .ok firmaCol =>
    let df := frameSetCol df "Firma" (firmaCol.map normalize_spaces)
    match frameGetCol df "Position Box" with
    | .error e => .error e
    | .ok posCol =>
      let df := frameFilter df (posCol.map pyMatchPosBox)
      let df := tourColumns.foldl
        (fun d c => if c ∈ d.cols then d else frameAddCol d c) df
      frameSelect df tourColumns

/-- Embeds `parse_tourenliste` (lines 229–268), taking the extracted text of each
page (the `pdfplumber` call is the external collaborator of the spec).
Uncaught Python exceptions are `Except.error`. -/
def parse_tourenliste (pages : List (List Char)) : Except String Frame :=
  match tourRows0 pages with
  | none => .error "IndexError: list index out of range"
  | some rows => assembleFrame rows

/-! ## Concrete inputs used by the witnesses -/

/-- A minimal one-page document producing exactly one record. -/
def demoPages : List (List Char) := ["A\n1/2.3 4 5".data]

/-- The frame `parse_tourenliste demoPages` evaluates to. -/
def demoDf : Frame :=
  ⟨tourColumns,
   [[("Firma", "A".data), ("Ansprechperson", []), ("Telefon", []),
     ("Strasse", "A 1/2.3 4 5".data), ("PLZ / Ort", []), ("Artikel", []),
     ("Bemerkung", []), ("Position Box", "1/2.3".data), ("Adr.-Nr.", "4".data),
     ("Rhythmus", "5".data)]]⟩

/-- A line list with one complete block and one trailing unclosed line. -/
def demoLines : List (List Char) := ["A".data, "1/2.3 4 5".data, "B".data]

/-- Row predicate for C10: `Adr.-Nr.` and `Rhythmus` are non-empty all-digit. -/
def goodAdrRh (r : Row) : Bool :=
  !(rowGetD r "Adr.-Nr.").isEmpty && (rowGetD r "Adr.-Nr.").all Char.isDigit &&
  !(rowGetD r "Rhythmus").isEmpty && (rowGetD r "Rhythmus").all Char.isDigit

/-- Row predicate for C1: the ten keys in fixed order and an exactly-valid
`Position Box`. -/
def goodRowC1 (r : Row) : Bool :=
  (r.map Prod.fst == tourColumns) && posBoxExact (rowGetD r "Position Box")

/-! # Theorems -/

/-! ## Generic list helpers -/

theorem mem_of_mem_dropWhile {p : α → Bool} {l : List α} {x : α}
    (h : x ∈ l.dropWhile p) : x ∈ l :=
  (List.dropWhile_sublist p (l := l)).subset h

theorem mem_of_mem_pyStrip {l : List Char} {x : Char} (h : x ∈ pyStrip l) : x ∈ l := by
  unfold pyStrip at h
  rw [List.mem_reverse] at h
  have h2 := mem_of_mem_dropWhile h
  rw [List.mem_reverse] at h2
  exact mem_of_mem_dropWhile h2

theorem pySplitNl_ne_nil : ∀ (l : List Char), pySplitNl l ≠ [] := by
  intro l
  cases l with
  | nil => simp [pySplitNl]
  | cons c rest =>
    by_cases hc : c = '\n' <;> simp [pySplitNl, hc]

theorem pySplitNl_no_nl : ∀ (l : List Char), ∀ g ∈ pySplitNl l, '\n' ∉ g := by
  intro l
  induction l with
  | nil => simp [pySplitNl]
  | cons c rest ih =>
    intro g hg
    by_cases hc : c = '\n'
    · rw [pySplitNl, if_pos hc] at hg
      rcases List.mem_cons.mp hg with rfl | hg
      · simp
      · exact ih g hg
    · rw [pySplitNl, if_neg hc] at hg
      rcases List.mem_cons.mp hg with rfl | hg
      · intro hmem
        rcases List.mem_cons.mp hmem with he | he
        · exact hc he.symm
        · rcases hrest : pySplitNl rest with _ | ⟨g0, gs⟩
          · exact pySplitNl_ne_nil rest hrest
          · rw [hrest] at he
            exact ih g0 (hrest ▸ List.mem_cons_self g0 gs) he
      · exact ih g (List.mem_of_mem_tail hg)

theorem allLines_no_nl {pages : List (List Char)} {x : List Char}
    (h : x ∈ allLines pages) : '\n' ∉ x := by
  unfold allLines at h
  rcases List.mem_flatten.mp h with ⟨l, hl, hx⟩
  rcases List.mem_map.mp hl with ⟨p, _, rfl⟩
  exact pySplitNl_no_nl p x hx

/-! ## Deduplication (the seen-set loop of `extract_phones`) -/

theorem dedupKeepOrderGo_mem (l : List (List Char)) :
    ∀ seen a, a ∈ dedupKeepOrderGo seen l ↔ (a ∈ l ∧ a ∉ seen) := by
  induction l with
  | nil => simp [dedupKeepOrderGo]
  | cons p ps ih =>
    intro seen a
    by_cases hp : p ∈ seen
    · rw [dedupKeepOrderGo, if_pos hp, ih]
      constructor
      · rintro ⟨h1, h2⟩; exact ⟨List.mem_cons_of_mem p h1, h2⟩
      · rintro ⟨h1, h2⟩
        rcases List.mem_cons.mp h1 with rfl | h1
        · exact absurd hp h2
        · exact ⟨h1, h2⟩
    · rw [dedupKeepOrderGo, if_neg hp]
      constructor
      · intro h
        rcases List.mem_cons.mp h with rfl | h
        · exact ⟨List.mem_cons_self a ps, hp⟩
        · rw [ih] at h
          refine ⟨List.mem_cons_of_mem p h.1, fun hs => h.2 (List.mem_cons_of_mem p hs)⟩
      · rintro ⟨h1, h2⟩
        rcases List.mem_cons.mp h1 with rfl | h1
        · exact List.mem_cons_self a _
        · by_cases hap : a = p
          · subst hap; exact List.mem_cons_self a _
          · refine List.mem_cons_of_mem p ?_
            rw [ih]
            exact ⟨h1, fun hs => (List.mem_cons.mp hs).elim hap h2⟩

theorem dedupKeepOrderGo_nodup (l : List (List Char)) :
    ∀ seen, (dedupKeepOrderGo seen l).Nodup := by
  induction l with
  | nil => intro seen; simp [dedupKeepOrderGo]
  | cons p ps ih =>
    intro seen
    by_cases hp : p ∈ seen
    · rw [dedupKeepOrderGo, if_pos hp]; exact ih seen
    · rw [dedupKeepOrderGo, if_neg hp, List.nodup_cons]
      refine ⟨fun hmem => ?_, ih (p :: seen)⟩
      exact ((dedupKeepOrderGo_mem ps (p :: seen) p).mp hmem).2 (List.mem_cons_self p seen)

theorem count_eq_one_of_nodup_mem {α} [BEq α] [LawfulBEq α] {l : List α} {a : α}
    (nd : l.Nodup) (h : a ∈ l) : l.count a = 1 := by
  induction l with
  | nil => cases h
  | cons x xs ih =>
    rcases List.nodup_cons.mp nd with ⟨hx, hxs⟩
    rcases List.mem_cons.mp h with rfl | hmem
    · rw [List.count_cons_self, List.count_eq_zero.mpr hx]
    · have hne : a ≠ x := fun he => hx (he ▸ hmem)
      rw [List.count_cons_of_ne hne, ih hxs hmem]

/-! ## The segmenter invariants -/

theorem keptLines_cons (l : List Char) (ls : List (List Char)) :
    keptLines (l :: ls) =
      if lineSkip (pyStrip l) then keptLines ls else pyStrip l :: keptLines ls := by
  by_cases h : lineSkip (pyStrip l) <;>
    simp [keptLines, List.filter_cons, h]

/-- Master invariant of the segmenter loop: with a marker-free buffer,
(1) emitted blocks followed by the leftover buffer are exactly the kept
lines, (2) every emitted block consists of marker-free lines closed by one
end-marker line, (3) the leftover buffer is marker-free, (4) one block is
emitted per kept end-marker line. -/
theorem parseRecordsAux_spec (ls : List (List Char)) : ∀ (buf : List (List Char)),
    (∀ x ∈ buf, endMarkerB x = false) →
    ((parseRecordsAux ls buf).1.flatten ++ (parseRecordsAux ls buf).2 = buf ++ keptLines ls) ∧
    (∀ b ∈ (parseRecordsAux ls buf).1, ∃ i lst, b = i ++ [lst] ∧ endMarkerB lst = true ∧
      ∀ x ∈ i, endMarkerB x = false) ∧
    (∀ x ∈ (parseRecordsAux ls buf).2, endMarkerB x = false) ∧
    ((parseRecordsAux ls buf).1.length = (keptLines ls).countP endMarkerB) := by
  induction ls with
  | nil =>
    intro buf hbuf
    refine ⟨by simp [parseRecordsAux, keptLines], by simp [parseRecordsAux], ?_, ?_⟩
    · intro x hx; exact hbuf x hx
    · simp [parseRecordsAux, keptLines]
  | cons l ls ih =>
    intro buf hbuf
    by_cases hskip : lineSkip (pyStrip l)
    · have hred : parseRecordsAux (l :: ls) buf = parseRecordsAux ls buf := by
        rw [parseRecordsAux, if_pos hskip]
      rw [hred, keptLines_cons, if_pos hskip]
      exact ih buf hbuf
    · by_cases hmark : endMarkerB (pyStrip l)
      · have hred : parseRecordsAux (l :: ls) buf =
            ((buf ++ [pyStrip l]) :: (parseRecordsAux ls []).1, (parseRecordsAux ls []).2) := by
          rw [parseRecordsAux, if_neg hskip, if_pos hmark]
        obtain ⟨ih1, ih2, ih3, ih4⟩ := ih [] (by simp)
        rw [hred, keptLines_cons, if_neg hskip]
        refine ⟨?_, ?_, ih3, ?_⟩
        · simp only [List.flatten_cons, List.append_assoc, ih1]
          simp
        · intro b hb
          rcases List.mem_cons.mp hb with rfl | hb
          · exact ⟨buf, pyStrip l, rfl, hmark, hbuf⟩
          · exact ih2 b hb
        · simp [List.countP_cons, ih4, hmark]
      · have hred : parseRecordsAux (l :: ls) buf = parseRecordsAux ls (buf ++ [pyStrip l]) := by
          rw [parseRecordsAux, if_neg hskip, if_neg hmark]
        have hbuf' : ∀ x ∈ buf ++ [pyStrip l], endMarkerB x = false := by
          intro x hx
          rcases List.mem_append.mp hx with hx | hx
          · exact hbuf x hx
          · rw [List.mem_singleton.mp hx]
            exact Bool.not_eq_true _ ▸ (by simpa using hmark)
        obtain ⟨ih1, ih2, ih3, ih4⟩ := ih (buf ++ [pyStrip l]) hbuf'
        rw [hred, keptLines_cons, if_neg hskip]
        refine ⟨?_, ih2, ih3, ?_⟩
        · rw [ih1]; simp
        · rw [ih4, List.countP_cons_of_neg]
          simpa using hmark

/-- C3: the blocks emitted by `parse_records_from_text` partition the kept
(stripped, non-noise) lines without overlap — their concatenation followed
by the dropped leftover buffer is exactly the kept-line sequence; every
emitted block is non-empty, its last line (and only its last line) matches
the end-marker regex `(\d+/\d+\.\d+)\s+(\d+)\s+(\d+)\s*$` anchored at line
end; exactly one block is emitted per end-marker line (the block count
equals the number of kept end-marker lines, and the buffer is empty right
after each emission, so no line is attributed to two blocks). -/
theorem parse_records_partition (lines : List (List Char)) :
    ((parse_records_from_text lines).flatten ++ segFinalBuf lines = keptLines lines) ∧
    (∀ b ∈ parse_records_from_text lines, ∃ i lst, b = i ++ [lst] ∧ endMarkerB lst = true ∧
      ∀ x ∈ i, endMarkerB x = false) ∧
    ((parse_records_from_text lines).length = (keptLines lines).countP endMarkerB) := by
  obtain ⟨h1, h2, _, h4⟩ := parseRecordsAux_spec lines [] (by simp)
  exact ⟨by simpa using h1, h2, h4⟩

theorem parse_records_partition_witness :
    ((parse_records_from_text demoLines).flatten ++ segFinalBuf demoLines
        = keptLines demoLines) ∧
    ((parse_records_from_text demoLines).length
        = (keptLines demoLines).countP endMarkerB) :=
  ⟨(parse_records_partition demoLines).1, (parse_records_partition demoLines).2.2⟩

/-- C4: when the line sequence ends while lines are still buffered, the
in-flight block is never emitted (it occurs zero times among the emitted
blocks) and its buffered text never satisfies the end-marker pattern (any
line satisfying it would have closed the block at once), so "emitted iff
the buffered text satisfies the end-marker pattern" holds with both sides
false: the block is silently dropped and contributes no block. -/
theorem parse_records_tail_dropped (lines : List (List Char))
    (_h : segFinalBuf lines ≠ []) :
    (parse_records_from_text lines).count (segFinalBuf lines) = 0 ∧
    (segFinalBuf lines).countP endMarkerB = 0 := by
  obtain ⟨_, h2, h3, _⟩ := parseRecordsAux_spec lines [] (by simp)
  have hfree : (segFinalBuf lines).countP endMarkerB = 0 := by
    rw [List.countP_eq_zero]
    intro x hx
    simp [h3 x hx]
  refine ⟨List.count_eq_zero.mpr ?_, hfree⟩
  intro hmem
  obtain ⟨i, lst, heq, hmark, _⟩ := h2 _ hmem
  have hlst : lst ∈ segFinalBuf lines := by
    rw [heq]; exact List.mem_append_right i (List.mem_singleton.mpr rfl)
  have := h3 lst hlst
  rw [hmark] at this
  cases this

theorem parse_records_tail_dropped_witness :
    (parse_records_from_text ["A".data]).count (segFinalBuf ["A".data]) = 0 ∧
    (segFinalBuf ["A".data]).countP endMarkerB = 0 :=
  parse_records_tail_dropped ["A".data] (by decide)

/-- C9: the extraction pipeline is deterministic — two runs of the
segmenter plus `parse_block` (and of the whole `parse_tourenliste`) on
equal inputs give equal results, and classifying the same line twice gives
the same noise tag; in the pure embedding every heuristic is a function,
so this two-run formulation holds definitionally. -/
theorem extraction_deterministic (p1 p2 : List (List Char)) (h : p1 = p2) :
    parse_tourenliste p1 = parse_tourenliste p2 ∧
    (parse_records_from_text (allLines p1)).map parse_block
      = (parse_records_from_text (allLines p2)).map parse_block ∧
    (allLines p1).map (fun l => lineSkip (pyStrip l))
      = (allLines p2).map (fun l => lineSkip (pyStrip l)) := by
  subst h
  exact ⟨rfl, rfl, rfl⟩

theorem extraction_deterministic_witness :
    parse_tourenliste demoPages = parse_tourenliste demoPages ∧
    (parse_records_from_text (allLines demoPages)).map parse_block
      = (parse_records_from_text (allLines demoPages)).map parse_block ∧
    (allLines demoPages).map (fun l => lineSkip (pyStrip l))
      = (allLines demoPages).map (fun l => lineSkip (pyStrip l)) :=
  extraction_deterministic demoPages demoPages rfl

/-- C6 counterexample: the text `"DGB 2023 KB"` contains both `"GB 2023"`
(as a suffix of `"DGB 2023"`) and `"KB"` as literal substrings, yet
`extract_article` returns `"DGB 2023"`, not `"GB 2023"` — refuting the
claim's universally quantified "in particular" clause. -/
theorem extract_article_dgb_counterexample :
    containsSub "DGB 2023 KB".data "GB 2023".data = true ∧
    containsSub "DGB 2023 KB".data "KB".data = true ∧
    extract_article "DGB 2023 KB".data = "DGB 2023".data ∧
    extract_article "DGB 2023 KB".data ≠ "GB 2023".data := by
  decide

/-- C6 (amended): `extract_article` returns the first token of the ordered
priority list `["DGB 2023", "GB 2023", "KB"]` occurring as a literal
substring, and the empty string if none occurs; in particular, for every
text containing both `"GB 2023"` and `"KB"` **but not `"DGB 2023"`**, it
returns `"GB 2023"`. -/
theorem extract_article_priority_amended (t : List Char)
    (h0 : containsSub t "DGB 2023".data = false)
    (h1 : containsSub t "GB 2023".data = true)
    (_h2 : containsSub t "KB".data = true) :
    extract_article t = "GB 2023".data := by
  unfold extract_article ARTICLE_TOKENS
  rw [List.find?_cons_of_neg _ (by simp [h0]), List.find?_cons_of_pos _ (by simp [h1])]

theorem extract_article_priority_amended_witness :
    extract_article "GB 2023 KB".data = "GB 2023".data :=
  extract_article_priority_amended "GB 2023 KB".data (by decide) (by decide) (by decide)

/-- C7 counterexample: the text `"0712345678 0712345678"` contains the phone
token `"0712345678"` twice (at disjoint positions, separated by a space),
but the greedy `[\d\s]{7,}` merges both occurrences into the single match
`"0712345678 0712345678"`: the deduplicated phone list of `extract_phones`
contains the token zero times, not exactly once, refuting the claim's
universally quantified deduplication clause. -/
theorem extract_phones_merge_counterexample :
    "0712345678 0712345678".data = "0712345678".data ++ ' ' :: "0712345678".data ∧
    findallPhones "0712345678 0712345678".data = ["0712345678 0712345678".data] ∧
    (phoneListNorm "0712345678 0712345678".data).count "0712345678".data = 0 ∧
    extract_phones "0712345678 0712345678".data = "0712345678 0712345678".data := by
  decide

/-- C7 (amended): `extract_phones` returns the whitespace-normalized phone
matches deduplicated preserving first-seen order and joined with `" / "`;
in particular, whenever a token occurs (once or more) **among the
normalized regex matches**, the deduplicated list that is joined contains
it exactly once.  (Dedup is over whole matches: space-adjacent repetitions
of a token merge into one longer match, see the counterexample.) -/
theorem extract_phones_dedup_amended (t p : List Char)
    (h : p ∈ (findallPhones t).map normalize_spaces) :
    (phoneListNorm t).count p = 1 ∧
    extract_phones t = List.intercalate " / ".data (phoneListNorm t) :=
  ⟨count_eq_one_of_nodup_mem (dedupKeepOrderGo_nodup _ [])
      ((dedupKeepOrderGo_mem _ [] p).mpr ⟨h, by simp⟩),
   rfl⟩

theorem extract_phones_dedup_amended_witness :
    (phoneListNorm "071 123 45 67 / 071 123 45 67".data).count "071 123 45 67".data = 1 :=
  (extract_phones_dedup_amended "071 123 45 67 / 071 123 45 67".data
    "071 123 45 67".data (by decide)).1

/-- C8: every sub-extractor returns the empty string when its pattern does
not match (`extract_phones` with no regex match, `extract_contact_name`
with no phone match, `extract_article` with no token contained,
`split_plz_ort` with no PLZ/Ort match, `extract_street` when all three of
its heuristics fail), and — being total functions in the embedding — none
raises; consequently `parse_block` succeeds on every non-empty block and
returns a record carrying all ten fields in the fixed order. -/
theorem extractors_empty_on_no_match :
    (∀ t, findallPhones t = [] → extract_phones t = []) ∧
    (∀ t, phoneSearchStart t = none → extract_contact_name t = []) ∧
    (∀ t, ARTICLE_TOKENS.all (fun tok => !containsSub t tok) = true → extract_article t = []) ∧
    (∀ t, plzSearchGo none t = none → split_plz_ort t = []) ∧
    (∀ t, streetM1Start none 0 (normalize_spaces (streetPre t)) = none →
      streetM2Go (normalize_spaces (streetPre t)) = none →
      ¬(normalize_spaces (streetPre t) ≠ [] ∧
          (pySplitWs (normalize_spaces (streetPre t))).length ≤ 4) →
      extract_street t = []) ∧
    (∀ b : List (List Char), b ≠ [] →
      (parse_block b).isSome = true ∧
      ((parse_block b).getD []).map Prod.fst = tourColumns) := by
  refine ⟨?_, ?_, ?_, ?_, ?_, ?_⟩
  · intro t h
    simp [extract_phones, phoneListNorm, h, dedupKeepOrder, dedupKeepOrderGo,
      List.intercalate]
  · intro t h
    simp [extract_contact_name, h]
  · intro t h
    rw [List.all_eq_true] at h
    have hf : ARTICLE_TOKENS.find? (fun tok => containsSub t tok) = none := by
      rw [List.find?_eq_none]
      intro x hx
      simpa using h x hx
    simp [extract_article, hf]
  · intro t h
    simp [split_plz_ort, h]
  · intro t h1 h2 h3
    unfold extract_street
    simp only [h1, h2]
    rw [if_neg h3]
  · intro b hb
    match b, hb with
    | first :: restLines, _ => exact ⟨rfl, rfl⟩

theorem extractors_empty_on_no_match_witness :
    extract_phones "? ? ? ? ?".data = [] ∧
    extract_contact_name "? ? ? ? ?".data = [] ∧
    extract_article "? ? ? ? ?".data = [] ∧
    split_plz_ort "? ? ? ? ?".data = [] ∧
    extract_street "? ? ? ? ?".data = [] ∧
    (parse_block ["x".data]).isSome = true ∧
    ((parse_block ["x".data]).getD []).map Prod.fst = tourColumns :=
  ⟨extractors_empty_on_no_match.1 _ (by decide),
   extractors_empty_on_no_match.2.1 _ (by decide),
   extractors_empty_on_no_match.2.2.1 _ (by decide),
   extractors_empty_on_no_match.2.2.2.1 _ (by decide),
   extractors_empty_on_no_match.2.2.2.2.1 _ (by decide) (by decide) (by decide),
   (extractors_empty_on_no_match.2.2.2.2.2 ["x".data] (by simp)).1,
   (extractors_empty_on_no_match.2.2.2.2.2 ["x".data] (by simp)).2⟩

/-! ## Shape of the end-marker captures -/

theorem chompDigits1_eq_some {l d r : List Char} (h : chompDigits1 l = some (d, r)) :
    d ≠ [] ∧ (∀ c ∈ d, c.isDigit = true) ∧
    d = l.takeWhile Char.isDigit ∧ r = l.dropWhile Char.isDigit := by
  unfold chompDigits1 at h
  split at h
  · cases h
  · rename_i hne
    injection h with h'
    injection h' with hd hr
    subst hd; subst hr
    refine ⟨?_, fun c hc => List.mem_takeWhile_imp hc, rfl, rfl⟩
    intro hnil
    rw [hnil] at hne
    exact hne rfl

theorem endParseAt_some_shape {l : List Char} {cap : EndCap}
    (h : endParseAt l = some cap) :
    ∃ d1 d2 d3, cap.pos = d1 ++ '/' :: (d2 ++ '.' :: d3) ∧
      d1 ≠ [] ∧ d2 ≠ [] ∧ d3 ≠ [] ∧
      (∀ c ∈ d1, c.isDigit = true) ∧ (∀ c ∈ d2, c.isDigit = true) ∧
      (∀ c ∈ d3, c.isDigit = true) ∧
      cap.adr ≠ [] ∧ (∀ c ∈ cap.adr, c.isDigit = true) ∧
      cap.rh ≠ [] ∧ (∀ c ∈ cap.rh, c.isDigit = true) := by
  simp only [endParseAt, bind, Option.bind_eq_some] at h
  obtain ⟨⟨d1, r1⟩, hd1, h⟩ := h
  obtain ⟨r2, _, h⟩ := h
  obtain ⟨⟨d2, r3⟩, hd2, h⟩ := h
  obtain ⟨r4, _, h⟩ := h
  obtain ⟨⟨d3, r5⟩, hd3, h⟩ := h
  obtain ⟨r6, _, h⟩ := h
  obtain ⟨⟨adr, r7⟩, hadr, h⟩ := h
  obtain ⟨r8, _, h⟩ := h
  obtain ⟨⟨rh, r9⟩, hrh, h⟩ := h
  obtain ⟨c1, c31, _, _⟩ := chompDigits1_eq_some hd1
  obtain ⟨c2, c32, _, _⟩ := chompDigits1_eq_some hd2
  obtain ⟨c3, c33, _, _⟩ := chompDigits1_eq_some hd3
  obtain ⟨ca1, ca2, _, _⟩ := chompDigits1_eq_some hadr
  obtain ⟨cr1, cr2, _, _⟩ := chompDigits1_eq_some hrh
  split at h
  · injection h with h'
    subst h'
    exact ⟨d1, d2, d3, rfl, c1, c2, c3, c31, c32, c33, ca1, ca2, cr1, cr2⟩
  · cases h

theorem posBoxExact_shape {d1 d2 d3 : List Char}
    (h1 : d1 ≠ []) (h2 : d2 ≠ []) (h3 : d3 ≠ [])
    (a1 : ∀ c ∈ d1, c.isDigit = true) (a2 : ∀ c ∈ d2, c.isDigit = true)
    (a3 : ∀ c ∈ d3, c.isDigit = true) :
    posBoxExact (d1 ++ '/' :: (d2 ++ '.' :: d3)) = true := by
  unfold posBoxExact
  rw [List.takeWhile_append_of_pos a1, List.dropWhile_append_of_pos a1,
      List.takeWhile_cons_of_neg (by decide), List.dropWhile_cons_of_neg (by decide)]
  simp only [List.append_nil]
  rw [List.takeWhile_append_of_pos a2, List.dropWhile_append_of_pos a2,
      List.takeWhile_cons_of_neg (by decide), List.dropWhile_cons_of_neg (by decide)]
  simp only [List.append_nil]
  rw [List.takeWhile_eq_self_iff.mpr a3, List.dropWhile_eq_nil_iff.mpr a3]
  simp [h1, h2, h3]

theorem endSearchGo_drop : ∀ (l : List Char) (k : Nat) (cap : EndCap),
    endSearchGo l = some (k, cap) → endParseAt (l.drop k) = some cap := by
  intro l
  induction l with
  | nil => intro k cap h; simp [endSearchGo] at h
  | cons c t ih =>
    intro k cap h
    rw [endSearchGo] at h
    cases hp : endParseAt (c :: t) with
    | some cap' =>
      rw [hp] at h
      injection h with h'
      injection h' with hk hcap
      subst hk; subst hcap
      exact hp
    | none =>
      rw [hp] at h
      cases hs : endSearchGo t with
      | none => rw [hs] at h; cases h
      | some p =>
        rw [hs] at h
        injection h with h'
        have h2 : (p.1 + 1, p.2) = (k, cap) := h'
        simp only [Prod.mk.injEq] at h2
        obtain ⟨hk, hcap⟩ := h2
        subst hk; subst hcap
        show endParseAt (List.drop p.1 t) = some p.2
        exact ih p.1 p.2 (by rw [hs])

/-- The `re.match` variant succeeds on a newline-free line whenever the
`re.search` variant does, with the same captures and `pre` the text before
the match. -/
theorem endMatchLine_of_search {l : List Char} {k : Nat} {cap : EndCap}
    (hs : endSearchGo l = some (k, cap)) (hnl : '\n' ∉ l) :
    endMatchLine l = some (l.take k, cap) := by
  unfold endMatchLine
  rw [hs]
  show (if '\n' ∈ List.take k l then none else some (List.take k l, cap))
      = some (List.take k l, cap)
  rw [if_neg (fun hmem => hnl (List.take_subset k l hmem))]

/-- Every capture produced by the end-marker search has an exactly-valid
position box and non-empty all-digit address/rhythm groups. -/
theorem endSearch_cap_good {l : List Char} {k : Nat} {cap : EndCap}
    (hs : endSearchGo l = some (k, cap)) :
    posBoxExact cap.pos = true ∧ cap.adr ≠ [] ∧ (∀ c ∈ cap.adr, c.isDigit = true) ∧
    cap.rh ≠ [] ∧ (∀ c ∈ cap.rh, c.isDigit = true) := by
  obtain ⟨d1, d2, d3, hpos, h1, h2, h3, a1, a2, a3, ha1, ha2, hr1, hr2⟩ :=
    endParseAt_some_shape (endSearchGo_drop l k cap hs)
  exact ⟨hpos ▸ posBoxExact_shape h1 h2 h3 a1 a2 a3, ha1, ha2, hr1, hr2⟩

/-! ## `parse_block` field access -/

theorem parse_block_cons (first : List Char) (restLines : List (List Char)) :
    ∃ row, parse_block (first :: restLines) = some row ∧
      row.map Prod.fst = tourColumns ∧
      rowGetD row "Position Box" = (endMatchParts ((first :: restLines).getLastD [])).1 ∧
      rowGetD row "Adr.-Nr." = (endMatchParts ((first :: restLines).getLastD [])).2.1 ∧
      rowGetD row "Rhythmus" = (endMatchParts ((first :: restLines).getLastD [])).2.2.1 :=
  ⟨_, rfl, rfl, rfl, rfl, rfl⟩

/-! ## Frame machinery -/

theorem mapOpt_some_mem {α β} {f : α → Option β} :
    ∀ {l : List α} {l' : List β}, mapOpt f l = some l' →
      ∀ y ∈ l', ∃ x ∈ l, f x = some y := by
  intro l
  induction l with
  | nil =>
    intro l' h y hy
    simp only [mapOpt] at h
    injection h with h'
    subst h'
    cases hy
  | cons x xs ih =>
    intro l' h y hy
    rw [mapOpt] at h
    cases hfx : f x with
    | none => rw [hfx] at h; cases h
    | some y0 =>
      cases hxs : mapOpt f xs with
      | none => rw [hfx, hxs] at h; cases h
      | some ys =>
        rw [hfx, hxs] at h
        injection h with h'
        subst h'
        rcases List.mem_cons.mp hy with rfl | hy
        · exact ⟨x, List.mem_cons_self x xs, hfx⟩
        · obtain ⟨x', hx', hfx'⟩ := ih hxs y hy
          exact ⟨x', List.mem_cons_of_mem x hx', hfx'⟩

theorem mapOpt_map_eq {α β} {f : α → Option β} :
    ∀ {l : List α} {l' : List β}, mapOpt f l = some l' → l.map f = l'.map some := by
  intro l
  induction l with
  | nil =>
    intro l' h
    simp only [mapOpt] at h
    injection h with h'
    subst h'
    rfl
  | cons x xs ih =>
    intro l' h
    rw [mapOpt] at h
    cases hfx : f x with
    | none => rw [hfx] at h; cases h
    | some y0 =>
      cases hxs : mapOpt f xs with
      | none => rw [hfx, hxs] at h; cases h
      | some ys =>
        rw [hfx, hxs] at h
        injection h with h'
        subst h'
        simp [hfx, ih hxs]

theorem tourColumns_nodup : tourColumns.Nodup := by decide

/-- Inserting the keys of a row whose key list is `tourColumns` into an
empty accumulator yields `tourColumns`. -/
theorem insKeys_nil {r : Row} (h : r.map Prod.fst = tourColumns) :
    insKeys [] r = tourColumns := by
  have : insKeys [] r =
      (r.map Prod.fst).foldl (fun a k => if k ∈ a then a else a ++ [k]) [] := by
    rw [List.foldl_map]; rfl
  rw [this, h]
  decide

/-- Inserting keys already present leaves the accumulator unchanged. -/
theorem insKeys_full {r : Row} (h : r.map Prod.fst = tourColumns) :
    insKeys tourColumns r = tourColumns := by
  have : insKeys tourColumns r =
      (r.map Prod.fst).foldl (fun a k => if k ∈ a then a else a ++ [k]) tourColumns := by
    rw [List.foldl_map]; rfl
  rw [this, h]
  decide

theorem pdCols_eq_tourColumns : ∀ (rows : List Row), rows ≠ [] →
    (∀ r ∈ rows, r.map Prod.fst = tourColumns) → pdCols rows = tourColumns := by
  have aux : ∀ (rows : List Row), (∀ r ∈ rows, r.map Prod.fst = tourColumns) →
      rows.foldl insKeys tourColumns = tourColumns := by
    intro rows
    induction rows with
    | nil => intro _; rfl
    | cons r rs ih =>
      intro h
      rw [List.foldl_cons, insKeys_full (h r (List.mem_cons_self r rs))]
      exact ih (fun r' hr' => h r' (List.mem_cons_of_mem r hr'))
  intro rows hne h
  match rows, hne with
  | r :: rs, _ =>
    show (r :: rs).foldl insKeys [] = tourColumns
    rw [List.foldl_cons, insKeys_nil (h r (List.mem_cons_self r rs))]
    exact aux rs (fun r' hr' => h r' (List.mem_cons_of_mem r hr'))

theorem rowSet_map_fst : ∀ (r : Row) (k : String) (v : List Char),
    k ∈ r.map Prod.fst → (rowSet r k v).map Prod.fst = r.map Prod.fst := by
  intro r
  induction r with
  | nil => intro k v h; cases h
  | cons kv rest ih =>
    intro k v h
    by_cases he : kv.1 = k
    · rw [show rowSet (kv :: rest) k v = (k, v) :: rest from by
        simp [rowSet, he]]
      simp [he]
    · rw [show rowSet (kv :: rest) k v = kv :: rowSet rest k v from by
        simp [rowSet, he]]
      rw [List.map_cons] at h
      have hmem : k ∈ rest.map Prod.fst := by
        rcases List.mem_cons.mp h with h' | h'
        · exact absurd h'.symm he
        · exact h'
      simp [ih k v hmem]

theorem rowGetD_rowSet_ne : ∀ (r : Row) (k k' : String) (v : List Char), k ≠ k' →
    rowGetD (rowSet r k v) k' = rowGetD r k' := by
  intro r
  induction r with
  | nil =>
    intro k k' v hne
    simp [rowSet, rowGetD, hne]
  | cons kv rest ih =>
    intro k k' v hne
    by_cases he : kv.1 = k
    · rw [show rowSet (kv :: rest) k v = (k, v) :: rest from by simp [rowSet, he]]
      rw [show rowGetD ((k, v) :: rest) k' = rowGetD rest k' from by
        simp [rowGetD, hne]]
      rw [show rowGetD (kv :: rest) k' = rowGetD rest k' from by
        simp [rowGetD, he ▸ hne]]
    · rw [show rowSet (kv :: rest) k v = kv :: rowSet rest k v from by simp [rowSet, he]]
      by_cases he' : kv.1 = k'
      · cases kv with
        | mk k0 v0 =>
          simp only at he'
          simp [rowGetD, he', ih]
      · cases kv with
        | mk k0 v0 =>
          simp only at he'
          simp [rowGetD, he', ih k k' v hne]

theorem zip_rowSet_map (k : String) (f : Row → List Char) : ∀ (l : List Row),
    (l.zip (l.map f)).map (fun rv => rowSet rv.1 k rv.2)
      = l.map (fun r => rowSet r k (f r)) := by
  intro l
  induction l with
  | nil => rfl
  | cons x xs ih => simp [ih]

theorem frameSetCol_mk (cols : List String) (rows : List Row) (c : String)
    (vals : List (List Char)) :
    frameSetCol ⟨cols, rows⟩ c vals
      = ⟨cols, (rows.zip vals).map (fun rv => rowSet rv.1 c rv.2)⟩ := rfl

theorem frameFilter_mk (cols : List String) (rows : List Row) (mask : List Bool) :
    frameFilter ⟨cols, rows⟩ mask
      = ⟨cols, ((rows.zip mask).filter (fun rb => rb.2)).map (fun rb => rb.1)⟩ := rfl

theorem frameSelect_mk (cols : List String) (rows : List Row) (cs : List String) :
    frameSelect ⟨cols, rows⟩ cs
      = if cs.all (fun c => c ∈ cols) then
          Except.ok ⟨cs, rows.map (fun r => cs.map (fun c => (c, rowGetD r c)))⟩
        else Except.error "KeyError" := rfl

theorem zip_map_self_filter {α} (l : List α) (f : α → Bool) :
    ((l.zip (l.map f)).filter (fun rb => rb.2)).map (fun rb => rb.1) = l.filter f := by
  induction l with
  | nil => rfl
  | cons x xs ih =>
    by_cases hf : f x <;> simp [List.filter_cons, hf, ih]

theorem foldl_addCol_id : ∀ (cs : List String) (df : Frame),
    (∀ c ∈ cs, c ∈ df.cols) →
    cs.foldl (fun d c => if c ∈ d.cols then d else frameAddCol d c) df = df := by
  intro cs
  induction cs with
  | nil => intro df _; rfl
  | cons c cs' ih =>
    intro df h
    rw [List.foldl_cons, if_pos (h c (List.mem_cons_self c cs'))]
    exact ih df (fun c' hc' => h c' (List.mem_cons_of_mem c hc'))

theorem select_proj_id : ∀ (r : Row) (cs : List String),
    r.map Prod.fst = cs → cs.Nodup →
    cs.map (fun c => (c, rowGetD r c)) = r := by
  intro r
  induction r with
  | nil =>
    intro cs h _
    rw [← h]
    rfl
  | cons kv rest ih =>
    intro cs h hnd
    cases kv with
    | mk k v =>
      subst h
      simp only [List.map_cons]
      rcases List.nodup_cons.mp hnd with ⟨hk, hnd'⟩
      have hhead : rowGetD ((k, v) :: rest) k = v := by simp [rowGetD]
      rw [hhead]
      have htail : ∀ c ∈ rest.map Prod.fst,
          ((c, rowGetD ((k, v) :: rest) c) : String × List Char)
            = (c, rowGetD rest c) := by
        intro c hc
        have hne : k ≠ c := fun he => hk (he ▸ hc)
        simp [rowGetD, hne]
      rw [List.map_congr_left htail, ih (rest.map Prod.fst) rfl hnd']

/-! ## The pipeline master lemma -/

/-- Row-level properties of the unfiltered rows: every row produced from an
emitted block carries the ten keys in order, an exactly-valid position box
and non-empty all-digit address/rhythm fields (the block's last line is the
end-marker line, and its captures seed these three fields directly). -/
theorem tourRows0_row_props {pages : List (List Char)} {rows0 : List Row}
    (hr : tourRows0 pages = some rows0) :
    ∀ r ∈ rows0, r.map Prod.fst = tourColumns ∧
      posBoxExact (rowGetD r "Position Box") = true ∧
      rowGetD r "Adr.-Nr." ≠ [] ∧ (∀ c ∈ rowGetD r "Adr.-Nr.", c.isDigit = true) ∧
      rowGetD r "Rhythmus" ≠ [] ∧ (∀ c ∈ rowGetD r "Rhythmus", c.isDigit = true) := by
  intro r hrmem
  obtain ⟨b, hbm, hpb⟩ := mapOpt_some_mem hr r hrmem
  obtain ⟨hA, hB, _, _⟩ := parseRecordsAux_spec (allLines pages) [] (by simp)
  obtain ⟨i, lst, hbeq, hmark, _⟩ := hB b hbm
  have hlstb : lst ∈ b := by
    rw [hbeq]; exact List.mem_append_right i (List.mem_singleton.mpr rfl)
  have hlstkept : lst ∈ keptLines (allLines pages) := by
    have h2 : lst ∈ (parseRecordsAux (allLines pages) []).1.flatten :=
      List.mem_flatten_of_mem hbm hlstb
    have h3 : lst ∈ (parseRecordsAux (allLines pages) []).1.flatten
        ++ (parseRecordsAux (allLines pages) []).2 := List.mem_append_left _ h2
    rw [hA] at h3
    simpa using h3
  have hnl : '\n' ∉ lst := by
    have h4 : lst ∈ (allLines pages).map pyStrip := (List.mem_filter.mp hlstkept).1
    obtain ⟨y, hy, hyeq⟩ := List.mem_map.mp h4
    intro hc
    rw [← hyeq] at hc
    exact allLines_no_nl hy (mem_of_mem_pyStrip hc)
  obtain ⟨k, cap, hs⟩ : ∃ k cap, endSearchGo lst = some (k, cap) := by
    unfold endMarkerB at hmark
    cases hsg : endSearchGo lst with
    | none => rw [hsg] at hmark; cases hmark
    | some p =>
      obtain ⟨k0, cap0⟩ := p
      exact ⟨k0, cap0, rfl⟩
  have hm := endMatchLine_of_search hs hnl
  obtain ⟨hpos, ha1, ha2, hrh1, hrh2⟩ := endSearch_cap_good hs
  have hparts : endMatchParts lst = (cap.pos, cap.adr, cap.rh,
      normalize_spaces (lst.take k)) := by
    rw [endMatchParts, hm]
  rcases i with _ | ⟨hd, tl⟩
  · obtain ⟨row, hrow, hkeys, hposf, hadrf, hrhf⟩ := parse_block_cons lst []
    rw [hbeq, show ([] ++ [lst] : List (List Char)) = [lst] from rfl, hrow] at hpb
    injection hpb with he
    subst he
    rw [show ([lst] : List (List Char)).getLastD [] = lst from rfl, hparts]
      at hposf hadrf hrhf
    exact ⟨hkeys, by rw [hposf]; exact hpos, by rw [hadrf]; exact ha1,
      by rw [hadrf]; exact ha2, by rw [hrhf]; exact hrh1, by rw [hrhf]; exact hrh2⟩
  · obtain ⟨row, hrow, hkeys, hposf, hadrf, hrhf⟩ := parse_block_cons hd (tl ++ [lst])
    rw [hbeq, List.cons_append, hrow] at hpb
    injection hpb with he
    subst he
    have hl : (hd :: (tl ++ [lst])).getLastD [] = lst := by
      rw [← List.cons_append]
      exact List.getLastD_concat _ _ _
    rw [hl, hparts] at hposf hadrf hrhf
    exact ⟨hkeys, by rw [hposf]; exact hpos, by rw [hadrf]; exact ha1,
      by rw [hadrf]; exact ha2, by rw [hrhf]; exact hrh1, by rw [hrhf]; exact hrh2⟩

/-- Full characterization of every successful `parse_tourenliste` run: the
blocks all parse, the columns are the fixed ten, the rows are exactly the
unfiltered rows after the `Firma` re-normalization (the `Position Box`
filter keeps every produced row), and each row carries the ten keys with an
exactly-valid position box and all-digit address/rhythm fields. -/
theorem parse_tourenliste_ok_spec (pages : List (List Char)) (df : Frame)
    (h : parse_tourenliste pages = .ok df) :
    ∃ rows0, tourRows0 pages = some rows0 ∧
      df.cols = tourColumns ∧
      df.rows = rows0.map firmaFixRow ∧
      ∀ r ∈ df.rows, r.map Prod.fst = tourColumns ∧
        posBoxExact (rowGetD r "Position Box") = true ∧
        rowGetD r "Adr.-Nr." ≠ [] ∧ (∀ c ∈ rowGetD r "Adr.-Nr.", c.isDigit = true) ∧
        rowGetD r "Rhythmus" ≠ [] ∧ (∀ c ∈ rowGetD r "Rhythmus", c.isDigit = true) := by
  cases hr : tourRows0 pages with
  | none =>
    unfold parse_tourenliste at h
    rw [hr] at h
    cases h
  | some rows0 =>
    have hpt0 : parse_tourenliste pages = assembleFrame rows0 := by
      unfold parse_tourenliste
      rw [hr]
    have hrowprops := tourRows0_row_props hr
    have hkeys0 : ∀ r ∈ rows0, r.map Prod.fst = tourColumns :=
      fun r hx => (hrowprops r hx).1
    have hne : rows0 ≠ [] := by
      intro hnil
      rw [hnil] at hpt0
      rw [show assembleFrame [] = (Except.error "KeyError: Firma" : Except String Frame)
            from rfl] at hpt0
      rw [hpt0] at h
      cases h
    have hcols : pdCols rows0 = tourColumns := pdCols_eq_tourColumns rows0 hne hkeys0
    -- per-row properties of the Firma-normalized rows
    have hrows1keys : ∀ r ∈ rows0.map firmaFixRow, r.map Prod.fst = tourColumns := by
      intro r hrm
      obtain ⟨rr, hrr, rfl⟩ := List.mem_map.mp hrm
      rw [firmaFixRow, rowSet_map_fst rr "Firma" _ (by rw [hkeys0 rr hrr]; decide)]
      exact hkeys0 rr hrr
    have hvals : ∀ r ∈ rows0.map firmaFixRow,
        posBoxExact (rowGetD r "Position Box") = true ∧
        rowGetD r "Adr.-Nr." ≠ [] ∧ (∀ c ∈ rowGetD r "Adr.-Nr.", c.isDigit = true) ∧
        rowGetD r "Rhythmus" ≠ [] ∧ (∀ c ∈ rowGetD r "Rhythmus", c.isDigit = true) := by
      intro r hrm
      obtain ⟨rr, hrr, rfl⟩ := List.mem_map.mp hrm
      rw [firmaFixRow, rowGetD_rowSet_ne rr "Firma" "Position Box" _ (by decide),
        rowGetD_rowSet_ne rr "Firma" "Adr.-Nr." _ (by decide),
        rowGetD_rowSet_ne rr "Firma" "Rhythmus" _ (by decide)]
      exact (hrowprops rr hrr).2
    -- the frame chain
    have hdf0 : pdDataFrame rows0 = ⟨tourColumns, rows0⟩ := by
      rw [pdDataFrame, hcols]
    have hfirma : frameGetCol ⟨tourColumns, rows0⟩ "Firma"
        = .ok (rows0.map (fun r => rowGetD r "Firma")) := by
      rw [frameGetCol, if_pos (by decide : ("Firma" : String) ∈ tourColumns)]
    have hset : frameSetCol ⟨tourColumns, rows0⟩ "Firma"
        ((rows0.map (fun r => rowGetD r "Firma")).map normalize_spaces)
        = ⟨tourColumns, rows0.map firmaFixRow⟩ := by
      rw [frameSetCol_mk]
      congr 1
      rw [List.map_map, zip_rowSet_map]
      rfl
    have hposcol : frameGetCol ⟨tourColumns, rows0.map firmaFixRow⟩ "Position Box"
        = .ok ((rows0.map firmaFixRow).map (fun r => rowGetD r "Position Box")) := by
      rw [frameGetCol, if_pos (by decide : ("Position Box" : String) ∈ tourColumns)]
    have hfilter : frameFilter ⟨tourColumns, rows0.map firmaFixRow⟩
        (((rows0.map firmaFixRow).map (fun r => rowGetD r "Position Box")).map
          pyMatchPosBox)
        = ⟨tourColumns, rows0.map firmaFixRow⟩ := by
      rw [frameFilter_mk]
      congr 1
      rw [List.map_map, zip_map_self_filter]
      refine List.filter_eq_self.mpr (fun r hrm => ?_)
      have := (hvals r hrm).1
      simp [Function.comp, pyMatchPosBox, this]
    have hfold : tourColumns.foldl
        (fun d c => if c ∈ d.cols then d else frameAddCol d c)
        ⟨tourColumns, rows0.map firmaFixRow⟩
        = ⟨tourColumns, rows0.map firmaFixRow⟩ :=
      foldl_addCol_id tourColumns _ (fun c hc => hc)
    have hselect : frameSelect ⟨tourColumns, rows0.map firmaFixRow⟩ tourColumns
        = .ok ⟨tourColumns, rows0.map firmaFixRow⟩ := by
      rw [frameSelect_mk, if_pos (by decide)]
      congr 2
      have hcongr : ∀ r ∈ rows0.map firmaFixRow,
          tourColumns.map (fun c => (c, rowGetD r c)) = id r := fun r hrm =>
        select_proj_id r tourColumns (hrows1keys r hrm) tourColumns_nodup
      rw [List.map_congr_left hcongr, List.map_id]
    have hpt : parse_tourenliste pages = .ok ⟨tourColumns, rows0.map firmaFixRow⟩ := by
      rw [hpt0]
      unfold assembleFrame
      simp only [hdf0, hfirma, hset, hposcol, hfilter, hfold, hselect]
    rw [hpt] at h
    injection h with he
    subst he
    exact ⟨rows0, rfl, rfl, rfl, fun r hrm => ⟨hrows1keys r hrm, hvals r hrm⟩⟩

/-- C1: every table `parse_tourenliste` produces has exactly the ten columns
Firma, Ansprechperson, Telefon, Strasse, "PLZ / Ort", Artikel, Bemerkung,
"Position Box", "Adr.-Nr.", Rhythmus in that fixed order; every retained
row carries exactly these ten fields and a `Position Box` matching
`^\d+/\d+\.\d+$` exactly; and the rows are precisely the pre-filter rows
that pass the `Position Box` filter, in their original record-discovery
order (a filter of the original list — rows failing the check are removed,
no sorting).  Structurally-missing columns are filled with the empty string
by the fill-in loop, which here finds all ten columns already present. -/
theorem parse_tourenliste_c1 (pages : List (List Char)) (df : Frame)
    (h : parse_tourenliste pages = .ok df) :
    df.cols = tourColumns ∧
    df.rows.all goodRowC1 = true ∧
    (tourRowsPre pages).map (fun rs => rs.filter keepRow) = some df.rows := by
  obtain ⟨rows0, hr, hcols, hrows, hprops⟩ := parse_tourenliste_ok_spec pages df h
  refine ⟨hcols, ?_, ?_⟩
  · rw [List.all_eq_true]
    intro r hrm
    obtain ⟨hkeys, hpos, _⟩ := hprops r hrm
    simp [goodRowC1, hkeys, hpos]
  · rw [tourRowsPre, hr]
    simp only [Option.map_some']
    congr 1
    rw [← hrows]
    refine List.filter_eq_self.mpr (fun r hrm => ?_)
    have := (hprops r hrm).2.1
    simp [keepRow, pyMatchPosBox, this]

theorem parse_tourenliste_c1_witness :
    demoDf.cols = tourColumns ∧
    demoDf.rows.all goodRowC1 = true ∧
    (tourRowsPre demoPages).map (fun rs => rs.filter keepRow) = some demoDf.rows :=
  parse_tourenliste_c1 demoPages demoDf (by rfl)

/-- C5: both the row count before the `Position Box` filtering and the row
count after it are determined by the returned table — each equals its
length, because the filter provably keeps every produced row (each emitted
block ends in an end-marker line whose captures seed a valid position box).
The function returns only the final table; the counts are recoverable from
that result. -/
theorem parse_tourenliste_row_counts (pages : List (List Char)) (df : Frame)
    (h : parse_tourenliste pages = .ok df) :
    (tourRowsPre pages).map List.length = some df.rows.length ∧
    (tourRowsPre pages).map (fun rs => (rs.filter keepRow).length)
      = some df.rows.length := by
  obtain ⟨rows0, hr, _, hrows, hprops⟩ := parse_tourenliste_ok_spec pages df h
  have hfe : df.rows.filter keepRow = df.rows := by
    refine List.filter_eq_self.mpr (fun r hrm => ?_)
    have := (hprops r hrm).2.1
    simp [keepRow, pyMatchPosBox, this]
  constructor
  · rw [tourRowsPre, hr]
    simp [hrows]
  · rw [tourRowsPre, hr]
    simp only [Option.map_some']
    rw [← hrows, hfe]

theorem parse_tourenliste_row_counts_witness :
    (tourRowsPre demoPages).map List.length = some demoDf.rows.length ∧
    (tourRowsPre demoPages).map (fun rs => (rs.filter keepRow).length)
      = some demoDf.rows.length :=
  parse_tourenliste_row_counts demoPages demoDf (by rfl)

/-- C10: every row retained in the final table has non-empty all-digit
`Adr.-Nr.` and `Rhythmus` fields — all three structured fields are seeded
together from the same end-marker match of the block's last line (and a row
whose last line failed that match has an empty `Position Box` and is
removed by the filter), never re-derived heuristically. -/
theorem parse_tourenliste_adr_rhythmus_digits (pages : List (List Char)) (df : Frame)
    (h : parse_tourenliste pages = .ok df) :
    df.rows.all goodAdrRh = true := by
  obtain ⟨rows0, hr, _, _, hprops⟩ := parse_tourenliste_ok_spec pages df h
  rw [List.all_eq_true]
  intro r hrm
  obtain ⟨_, _, ha1, ha2, hrh1, hrh2⟩ := hprops r hrm
  have e1 : (rowGetD r "Adr.-Nr.").isEmpty = false := by
    rw [List.isEmpty_eq_false]; exact ha1
  have e2 : (rowGetD r "Rhythmus").isEmpty = false := by
    rw [List.isEmpty_eq_false]; exact hrh1
  simp only [goodAdrRh, e1, e2, Bool.not_false, Bool.true_and, Bool.and_eq_true,
    List.all_eq_true]
  exact ⟨⟨ha2, trivial⟩, hrh2⟩

theorem parse_tourenliste_adr_rhythmus_digits_witness :
    demoDf.rows.all goodAdrRh = true :=
  parse_tourenliste_adr_rhythmus_digits demoPages demoDf (by rfl)

/-- C2 (code bug): with zero record blocks the row list is empty, the
`pandas` frame has no columns, and `df["Firma"]` (line 247) raises
`KeyError` — the conversion aborts instead of returning a zero-row table.
Evaluated here both on an empty document and on a noise-only page. -/
theorem parse_tourenliste_zero_blocks_keyerror :
    parse_tourenliste [] = Except.error "KeyError: Firma" ∧
    parse_tourenliste ["Tourenliste per: Woche 7 Tour: 86".data]
      = Except.error "KeyError: Firma" :=
  ⟨rfl, rfl⟩

end Tourenliste
